import Mathlib

/-!
Verification of the Morpheus DSL semantic core (type model, unit algebra,
symbol table, resolver and type checker) against its natural-language
specification.  Every definition below is a shallow embedding of the
corresponding TypeScript source:

  * `src/analyzer/types.ts`   — type model and unit algebra,
  * `src/analyzer/scope.ts`   — scope chain and symbol table,
  * `src/analyzer/resolver.ts`— two-pass name resolution,
  * `src/analyzer/type-checker.ts` — two-phase check, expression inference,
  * `src/parser/ast.ts`       — the syntax-tree shapes consumed by the above.

JavaScript `Map` objects are modeled by insertion-ordered association lists
with unique keys (`Map.set` updates an existing key in place and appends a
new key at the end; `Map.get` returns the stored value or absence).  JS
`number` values used as unit scales are modeled by `ℚ`; the claims under
study never depend on scale arithmetic.  Exceptions are modeled by
`Except`: a thrown `TypeCheckError` is `Except.error message`.
Source-node metadata (source spans, annotations) that no analyzed function
reads is omitted from the embedded AST.
-/

namespace Morpheus

/-! ### Association-list model of JavaScript `Map` -/

/-- Model of `Map.get k`: the value stored at the first (and, for maps built through
`assocSet`, only) entry whose key is `k`. -/
def assocGet {κ α : Type} [DecidableEq κ] : List (κ × α) → κ → Option α
  | [], _ => none
  | (k, v) :: rest, d => if k = d then some v else assocGet rest d

/-- Model of `Map.set k v`: update the entry for `k` in place if present (JS `Map`
keeps the original insertion position), otherwise append `(k, v)`. -/
def assocSet {κ α : Type} [DecidableEq κ] : List (κ × α) → κ → α → List (κ × α)
  | [], k, v => [(k, v)]
  | (a, b) :: rest, k, v =>
    if a = k then (a, v) :: rest else (a, b) :: assocSet rest k v

/-! ### Unit algebra (`types.ts`, unit operations) -/

/-- The dimension mapping of a unit: dimension name → integer exponent. -/
abbrev DimMap := List (String × Int)

/-- A physical unit: dimension exponents plus a numeric scale. -/
structure MUnit where
  dims : DimMap
  scale : ℚ

/-- Constant `UNIT_ONE` of the source: the dimensionless identity (empty mapping, scale 1). -/
def UNIT_ONE : MUnit := ⟨[], 1⟩

/-- Source constructor `createUnit(dimensions, scale = 1)`. -/
def createUnit (dims : DimMap) (scale : ℚ) : MUnit := ⟨dims, scale⟩

/-- The `for (const [dim, exp] of b) dimensions.set(dim, (get(dim) ?? 0) + exp)`
loop shared by `multiplyUnits` (merging `b` into a copy of `a.dimensions`). -/
def mergeAdd (a b : DimMap) : DimMap :=
  b.foldl (fun acc p => assocSet acc p.1 ((assocGet acc p.1).getD 0 + p.2)) a

/-- The subtracting merge loop of `divideUnits`. -/
def mergeSub (a b : DimMap) : DimMap :=
  b.foldl (fun acc p => assocSet acc p.1 ((assocGet acc p.1).getD 0 - p.2)) a

/-- The `if (exp === 0) dimensions.delete(dim)` loop: remove zero exponents. -/
def pruneZeros (l : DimMap) : DimMap := l.filter (fun p => p.2 != 0)

/-- Source `multiplyUnits(a, b)`: pointwise-summed exponents, zero exponents pruned,
scales multiplied. -/
def multiplyUnits (a b : MUnit) : MUnit :=
  ⟨pruneZeros (mergeAdd a.dims b.dims), a.scale * b.scale⟩

/-- Source `divideUnits(a, b)`: pointwise-subtracted exponents, zero exponents
pruned, scales divided. -/
def divideUnits (a b : MUnit) : MUnit :=
  ⟨pruneZeros (mergeSub a.dims b.dims), a.scale / b.scale⟩

/-- Source `powerUnit(unit, exponent)`: every exponent multiplied by `exponent`
(no pruning in the source), scale raised to `exponent`. -/
def powerUnit (u : MUnit) (n : Int) : MUnit :=
  ⟨u.dims.map (fun p => (p.1, p.2 * n)), u.scale ^ n⟩

/-- Source `unitsEqual(a, b)`: equal dimension-map sizes and every entry of `a`
present with the same exponent in `b`; the scale is ignored. -/
def unitsEqual (a b : MUnit) : Bool :=
  a.dims.length == b.dims.length &&
    a.dims.all (fun p => assocGet b.dims p.1 == some p.2)

/-! ### Type model (`types.ts`) -/

/-- The closed tagged variant of Morpheus types.  Primitive names are the
strings of the source enumeration (`String`/`Int`/`Float`/`Bool`/`Date`/
`DateTime`/`Void`); a schema's field map is an insertion-ordered
association list. -/
inductive MType where
  | primitive (name : String)
  | schema (name : String) (fields : List (String × MType))
      (genericParams : List String) (genericArgs : List MType)
  | enum (name : String) (variants : List String)
  | array (element : MType)
  | optional (inner : MType)
  | quantity (unit : MUnit)
  | tuple (elements : List MType)
  | union (members : List MType)
  | function (params : List MType) (returnType : MType)
  | typeVar (name : String) (id : Nat)
  | never
  | unknown

mutual

/-- Source `typesEqual(a, b)`: structural equality per variant; Schema/Enum compare
by name only; Quantity by `unitsEqual`; Tuple/Function element-wise in
order; Union by equal length plus a one-directional existence check
(the source comment calls this "order-independent equality (simplified)"). -/
def typesEqual : MType → MType → Bool
  | .primitive a, .primitive b => a == b
  | .schema a _ _ _, .schema b _ _ _ => a == b
  | .enum a _, .enum b _ => a == b
  | .array a, .array b => typesEqual a b
  | .optional a, .optional b => typesEqual a b
  | .quantity u, .quantity v => unitsEqual u v
  | .tuple as, .tuple bs => as.length == bs.length && pairwiseEqual as bs
  | .union as, .union bs => as.length == bs.length && allExistsEqual as bs
  | .function ps r, .function qs s =>
    ps.length == qs.length && (pairwiseEqual ps qs && typesEqual r s)
  | .typeVar _ i, .typeVar _ j => i == j
  | .never, .never => true
  | .unknown, .unknown => true
  | _, _ => false

/-- The loop `a.every((e, i) => typesEqual(e, b[i]))` under the guard that the two
lists have equal length: index-wise equality. -/
def pairwiseEqual : List MType → List MType → Bool
  | [], [] => true
  | a :: as, b :: bs => typesEqual a b && pairwiseEqual as bs
  | _, _ => false

/-- The check `b.some((bm) => typesEqual(m, bm))`. -/
def existsEqual : MType → List MType → Bool
  | _, [] => false
  | m, b :: bs => typesEqual m b || existsEqual m bs

/-- The check `a.every((m) => b.some((bm) => typesEqual(m, bm)))`. -/
def allExistsEqual : List MType → List MType → Bool
  | [], _ => true
  | a :: as, bs => existsEqual a bs && allExistsEqual as bs

end

mutual

/-- Source `isSubtype(sub, sup)`: the source's ordered rule list — `typesEqual`
first, then Never ⊑ anything, anything ⊑ Unknown, the one-sided Optional
rule, nominal Schema comparison, Array covariance, and the two Union
rules; every other combination is `false`. -/
def isSubtype (sub sup : MType) : Bool :=
  if typesEqual sub sup then true
  else
    match sub, sup with
    | .never, _ => true
    | _, .unknown => true
    | .optional _, .optional _ => false
    | sub, .optional inner => isSubtype sub inner
    | .schema a _ _ _, .schema b _ _ _ => a == b
    | .array e, .array f => isSubtype e f
    | .union ms, sup => allSubtype ms sup
    | sub, .union ms => anySubtype sub ms
    | _, _ => false

/-- The check `sub.members.every((m) => isSubtype(m, sup))`. -/
def allSubtype : List MType → MType → Bool
  | [], _ => true
  | m :: ms, sup => isSubtype m sup && allSubtype ms sup

/-- The check `sup.members.some((m) => isSubtype(sub, m))`. -/
def anySubtype : MType → List MType → Bool
  | _, [] => false
  | sub, m :: ms => isSubtype sub m || anySubtype sub ms

end

/-- Source `formatUnit(unit)`: `1` for the empty mapping, else the `*`-joined
dimension factors with `^exp` on non-unit exponents. -/
def formatUnit (u : MUnit) : String :=
  if u.dims.length == 0 then "1"
  else
    String.intercalate "*"
      (u.dims.map (fun p => if p.2 == 1 then p.1 else s!"{p.1}^{p.2}"))

mutual

/-- Source `formatType(type)`: the human-readable rendering used in diagnostics. -/
def formatType : MType → String
  | .primitive name => name
  | .schema name _ _ ga =>
    if ga.length > 0 then
      name ++ "<" ++ String.intercalate ", " (formatTypeList ga) ++ ">"
    else name
  | .enum name _ => name
  | .array e => "[" ++ formatType e ++ "]"
  | .optional t => formatType t ++ "?"
  | .quantity u => "Quantity<" ++ formatUnit u ++ ">"
  | .tuple es => "(" ++ String.intercalate ", " (formatTypeList es) ++ ")"
  | .union ms => String.intercalate " | " (formatTypeList ms)
  | .function ps r =>
    "(" ++ String.intercalate ", " (formatTypeList ps) ++ ") -> " ++ formatType r
  | .typeVar name _ => name
  | .never => "Never"
  | .unknown => "Unknown"

/-- The list map `types.map(formatType)`. -/
def formatTypeList : List MType → List String
  | [] => []
  | t :: ts => formatType t :: formatTypeList ts

end

/-! ### Well-formedness

A JavaScript `Map` cannot hold two entries with the same key, so every
unit constructible by the source has duplicate-free dimension keys.  A
type is well-formed when every unit embedded in it has this property. -/

/-- Duplicate-free dimension keys: automatic for every JS `Map`. -/
def MUnit.WF (u : MUnit) : Prop := (u.dims.map Prod.fst).Nodup

/-- Every unit nested anywhere in the type has duplicate-free dimension
keys; this characterizes the types constructible by the source. -/
inductive MType.WF : MType → Prop where
  | primitive (name : String) : MType.WF (.primitive name)
  | schema (name : String) (fields : List (String × MType))
      (gp : List String) (ga : List MType) :
      (∀ p ∈ fields, MType.WF p.2) → (∀ t ∈ ga, MType.WF t) →
      MType.WF (.schema name fields gp ga)
  | enum (name : String) (vs : List String) : MType.WF (.enum name vs)
  | array (e : MType) : MType.WF e → MType.WF (.array e)
  | optional (e : MType) : MType.WF e → MType.WF (.optional e)
  | quantity (u : MUnit) : u.WF → MType.WF (.quantity u)
  | tuple (es : List MType) : (∀ t ∈ es, MType.WF t) → MType.WF (.tuple es)
  | union (ms : List MType) : (∀ t ∈ ms, MType.WF t) → MType.WF (.union ms)
  | function (ps : List MType) (r : MType) :
      (∀ t ∈ ps, MType.WF t) → MType.WF r → MType.WF (.function ps r)
  | typeVar (n : String) (i : Nat) : MType.WF (.typeVar n i)
  | never : MType.WF .never
  | unknown : MType.WF .unknown

/-! ### Syntax tree (`ast.ts`), restricted to the payloads the analyzer reads -/

/-- Unit expressions: reference, product, quotient, integer power, the
identity literal `1`. -/
inductive UnitExpr where
  | unitRef (name : String)
  | unitMul (left right : UnitExpr)
  | unitDiv (left right : UnitExpr)
  | unitPow (base : UnitExpr) (exponent : Int)
  | unitOne

/-- Type expressions as they appear in declarations. -/
inductive TypeExpr where
  | primitiveT (name : String)
  | schemaRef (name : String)
  | enumRef (name : String)
  | arrayT (element : TypeExpr)
  | optionalT (inner : TypeExpr)
  | quantityT (unit : UnitExpr)
  | tupleT (elements : List TypeExpr)
  | unionT (members : List TypeExpr)
  | genericT (name : String)

/-- Match-case patterns (consumed only by the parser; the checker treats a
match expression through its default case). -/
inductive MPattern where
  | literalPattern (litType : String)
  | identifierPattern (name : String)
  | wildcardPattern

mutual

/-- Expressions inside transform bodies.  `literal` carries the literal
type tag (`Int`/`Float`/`String`/`Bool`/`Null`); the runtime value is
never read by the checker.  The parser attaches a path segment's
`optional` flag to the segment that follows the `?.` token. -/
inductive Expr where
  | literal (litType : String)
  | path (sourceIndex : Option Nat) (segments : List PathSeg)
  | targetRef (field : String)
  | binary (op : String) (left right : Expr)
  | unary (op : String) (operand : Expr)
  | ifE (condition thenExpr elseExpr : Expr)
  | matchE (scrutinee : Expr) (cases : List (MPattern × Expr))
  | lambda (param : String) (body : Expr)
  | aggregate (func : String) (source : Expr) (lambdaParam : String)
      (lambdaBody : Expr)
  | lookupE (table : String) (key : Expr) (defaultValue : Option Expr)
  | call (func : String) (args : List Expr)

/-- One step of a path expression. -/
inductive PathSeg where
  | fieldAccess (field : String) (optional : Bool)
  | indexAccess (index : Expr)

end

/-- A mapping rule `targetPath <- sourceExpr`. -/
structure MappingRule where
  targetPath : List String
  sourceExpr : Expr

/-- Pipeline steps. -/
inductive PStep where
  | transformStep (name : String)
  | parallelStep (transforms : List String)
  | conditionalStep (condition : Expr) (transform : String)

/-- Top-level declarations.  Field lists are `(name, type)` pairs; enum
variants are their names (the resolver reads nothing else). -/
inductive MDecl where
  | schemaDecl (name : String) (genericParams : List String)
      (extendsName : Option String) (fields : List (String × TypeExpr))
  | enumDecl (name : String) (variants : List String)
  | unitDecl (name : String) (dimension : Option String)
      (expr : Option UnitExpr)
  | dimensionDecl (name : String)
  | lookupDecl (name : String) (keyType valueType : TypeExpr)
  | transformDecl (name : String) (genericParams : List String)
      (sourceType targetType : TypeExpr) (rules : List MappingRule)
  | pipelineDecl (name : String) (steps : List PStep)
  | constraintDecl (name : String) (params : List String)

/-! ### Symbols (`scope.ts`) -/

/-- The tagged symbol variant.  A Schema symbol carries its `SchemaType`
(name, fields, generic data) inline; Lookup and Transform symbols carry
their resolved types.  The declaring AST node, kept in the source only
for diagnostics, is omitted. -/
inductive MSymbol where
  | schemaSym (name : String) (fields : List (String × MType))
      (genericParams : List String) (genericArgs : List MType)
  | enumSym (name : String) (variants : List String)
  | unitSym (name : String)
  | dimensionSym (name : String)
  | lookupSym (name : String) (keyType valueType : MType)
  | transformSym (name : String) (sourceType targetType : MType)
  | pipelineSym (name : String)
  | variableSym (name : String) (type : MType)

/-! ### Scope chain and symbol table (`scope.ts`) -/

/-- A scope: its own name→symbol map plus a parent link (`parent: Scope |
null` becomes the `root`/`child` split). -/
inductive Scope where
  | root (symbols : List (String × MSymbol))
  | child (symbols : List (String × MSymbol)) (parent : Scope)

/-- The scope's own map. -/
def Scope.symbols : Scope → List (String × MSymbol)
  | .root syms => syms
  | .child syms _ => syms

/-- Source `Scope.lookup(name)`: the own map first, then the parent chain, `null`
when nowhere bound. -/
def Scope.lookup : Scope → String → Option MSymbol
  | .root syms, name =>
    match assocGet syms name with
    | some s => some s
    | none => none
  | .child syms parent, name =>
    match assocGet syms name with
    | some s => some s
    | none => parent.lookup name

/-- The chain of own-maps from a scope to the root, nearest first. -/
def Scope.chain : Scope → List (List (String × MSymbol))
  | .root syms => [syms]
  | .child syms parent => syms :: parent.chain

/-- The symbol table: the global scope plus the current-scope pointer. -/
structure SymbolTable where
  globalScope : Scope
  currentScope : Scope

/-- Source `SymbolTable.lookup(name)` delegates to the current scope. -/
def SymbolTable.lookup (st : SymbolTable) (name : String) : Option MSymbol :=
  st.currentScope.lookup name

/-! ### Resolver (`resolver.ts`)

The resolver works in a fresh symbol table and never enters a child
scope, so its table is the global scope's own map.  `Scope.define` throws
a plain `Error` (not a `ResolveError`) on a duplicate name; the resolver's
per-declaration `catch` appends only `ResolveError` instances to the error
list and silently discards anything else. -/

/-- The two exception classes that can reach the resolver's catch blocks. -/
inductive JSError where
  | resolveError (message : String)
  | genericError (message : String)

/-- Source `Scope.define(name, symbol)`: throws a plain `Error` if the name is
already present in this scope, otherwise stores the binding. -/
def defineSym (table : List (String × MSymbol)) (name : String)
    (sym : MSymbol) : Except JSError (List (String × MSymbol)) :=
  if (assocGet table name).isSome then
    .error (.genericError
      s!"Symbol \x27{name}\x27 is already defined in this scope")
  else .ok (assocSet table name sym)

/-- Resolver pass 1 body: build the placeholder symbol for one declaration
and define it (schema fields and lookup/transform types start empty or
Unknown). -/
def registerDeclaration (table : List (String × MSymbol)) :
    MDecl → Except JSError (List (String × MSymbol))
  | .schemaDecl name gp _ _ => defineSym table name (.schemaSym name [] gp [])
  | .enumDecl name variants => defineSym table name (.enumSym name variants)
  | .dimensionDecl name => defineSym table name (.dimensionSym name)
  | .unitDecl name _ _ => defineSym table name (.unitSym name)
  | .lookupDecl name _ _ =>
    defineSym table name (.lookupSym name .unknown .unknown)
  | .transformDecl name _ _ _ _ =>
    defineSym table name (.transformSym name .unknown .unknown)
  | .pipelineDecl name _ => defineSym table name (.pipelineSym name)
  | .constraintDecl _ _ => .ok table

/-- Resolver pass 2 body: a schema's `extends` target must already be a
registered Schema symbol. -/
def resolveDeclaration (table : List (String × MSymbol)) :
    MDecl → Except JSError Unit
  | .schemaDecl _ _ (some parent) _ =>
    match assocGet table parent with
    | some (.schemaSym _ _ _ _) => .ok ()
    | _ => .error (.resolveError s!"Schema \x27{parent}\x27 not found")
  | _ => .ok ()

/-- The `catch (e) if (e instanceof ResolveError) errors.push(e)` boundary:
a `ResolveError` is recorded, anything else is silently dropped. -/
def catchResolve (errors : List JSError) : JSError → List JSError
  | .resolveError m => errors ++ [.resolveError m]
  | .genericError _ => errors

/-- Resolver pass 1 over the whole program. -/
def resolverPass1 : List MDecl → List (String × MSymbol) → List JSError →
    List (String × MSymbol) × List JSError
  | [], table, errors => (table, errors)
  | d :: ds, table, errors =>
    match registerDeclaration table d with
    | .ok table2 => resolverPass1 ds table2 errors
    | .error e => resolverPass1 ds table (catchResolve errors e)

/-- Resolver pass 2 over the whole program. -/
def resolverPass2 (table : List (String × MSymbol)) :
    List MDecl → List JSError → List JSError
  | [], errors => errors
  | d :: ds, errors =>
    match resolveDeclaration table d with
    | .ok _ => resolverPass2 table ds errors
    | .error e => resolverPass2 table ds (catchResolve errors e)

/-- Source `Resolver.resolve(program)`: register every declaration (pass 1), then
validate cross references (pass 2); return the table and the accumulated
error list.  All exceptions are caught at the declaration boundary, so
this is a total function. -/
def resolve (program : List MDecl) :
    List (String × MSymbol) × List JSError :=
  let (table, errors1) := resolverPass1 program [] []
  (table, resolverPass2 table program errors1)

/-! ### Type checker (`type-checker.ts`)

The checker owns the resolver's symbol table (it never enters a child
scope, so the table is its global map), a unit table, a dimension table
and the error accumulator.  A declaration that fails leaves the checker
state as it was at entry; the only source mutation that can precede a
throw inside one declaration (a transform symbol's type update) is never
read by later checking, so this is unobservable in the error output. -/

/-- The checker-owned mutable state. -/
structure TCState where
  symbols : List (String × MSymbol)
  units : List (String × MUnit)
  dimensions : List (String × String)
  errors : List String

/-- Source `evaluateUnitExpr(expr)`: evaluate a unit expression against the unit
table; an undeclared unit reference throws `Unit '<name>' not found`. -/
def evaluateUnitExpr (units : List (String × MUnit)) :
    UnitExpr → Except String MUnit
  | .unitOne => .ok UNIT_ONE
  | .unitRef name =>
    match assocGet units name with
    | none => .error s!"Unit \x27{name}\x27 not found"
    | some u => .ok u
  | .unitMul l r => do
    let left ← evaluateUnitExpr units l
    let right ← evaluateUnitExpr units r
    .ok (multiplyUnits left right)
  | .unitDiv l r => do
    let leftDiv ← evaluateUnitExpr units l
    let rightDiv ← evaluateUnitExpr units r
    .ok (divideUnits leftDiv rightDiv)
  | .unitPow base exponent => do
    let b ← evaluateUnitExpr units base
    .ok (powerUnit b exponent)

/-- Source `processUnit(decl)`: evaluate the declared expression if present, else
derive a base unit from the declared dimension, else the dimensionless
identity; store it in the unit table.  The evaluation can throw. -/
def processUnit (st : TCState) (name : String) (dimension : Option String)
    (expr : Option UnitExpr) : Except String TCState := do
  let unit ← match expr with
    | some e => evaluateUnitExpr st.units e
    | none =>
      match dimension with
      | some d => .ok (createUnit (assocSet [] d 1) 1)
      | none => .ok UNIT_ONE
  .ok { st with units := assocSet st.units name unit }

/-- Source `processDimension(decl)`: record the dimension name. -/
def processDimension (st : TCState) (name : String) : TCState :=
  { st with dimensions := assocSet st.dimensions name name }

/-- Checker pass 1 (units and dimensions) over the whole program.  The
source runs this loop with no `try`/`catch`, so a throw from
`processUnit` propagates out of `check`. -/
def checkPass1 : List MDecl → TCState → Except String TCState
  | [], st => .ok st
  | d :: ds, st =>
    match d with
    | .dimensionDecl name => checkPass1 ds (processDimension st name)
    | .unitDecl name dim expr => do
      let st2 ← processUnit st name dim expr
      checkPass1 ds st2
    | _ => checkPass1 ds st

mutual

/-- Source `resolveTypeExpr(typeExpr)`: resolve a declared type expression into a
concrete type; unknown schema/enum references and undeclared units throw.
The fall-through case (a generic parameter) yields Unknown. -/
def resolveTypeExpr (st : TCState) : TypeExpr → Except String MType
  | .primitiveT name => .ok (.primitive name)
  | .schemaRef name =>
    match assocGet st.symbols name with
    | some (.schemaSym n fields gp ga) => .ok (.schema n fields gp ga)
    | _ => .error s!"Schema \x27{name}\x27 not found"
  | .enumRef name =>
    match assocGet st.symbols name with
    | some (.enumSym n vs) => .ok (.enum n vs)
    | _ => .error s!"Enum \x27{name}\x27 not found"
  | .arrayT e => do .ok (.array (← resolveTypeExpr st e))
  | .optionalT e => do .ok (.optional (← resolveTypeExpr st e))
  | .quantityT ue => do .ok (.quantity (← evaluateUnitExpr st.units ue))
  | .tupleT es => do .ok (.tuple (← resolveTypeExprList st es))
  | .unionT ms => do .ok (.union (← resolveTypeExprList st ms))
  | .genericT _ => .ok .unknown

/-- The loop `elements.map((e) => resolveTypeExpr(e))` in the `Except` monad. -/
def resolveTypeExprList (st : TCState) :
    List TypeExpr → Except String (List MType)
  | [] => .ok []
  | t :: ts => do
    .ok ((← resolveTypeExpr st t) :: (← resolveTypeExprList st ts))

end

/-- Source `inferLiteral(expr)`: literal tags map to primitives; `Null` infers to
Never; anything else to Unknown. -/
def inferLiteral (litType : String) : MType :=
  match litType with
  | "Int" => .primitive "Int"
  | "Float" => .primitive "Float"
  | "String" => .primitive "String"
  | "Bool" => .primitive "Bool"
  | "Null" => .never
  | _ => .unknown

/-- Is the type an Optional?  (`current.kind !== 'Optional'` guard.) -/
def isOptionalType : MType → Bool
  | .optional _ => true
  | _ => false

/-- Source `inferPathExpr(expr, contextType)`: walk the segments from the context
type.  A field access requires the current type to be a Schema; after
stepping into the field, an optional segment wraps a non-Optional result
in Optional.  An index access requires an Array and yields its element
type (the index expression itself is not inspected). -/
def inferPathExpr : List PathSeg → MType → Except String MType
  | [], current => .ok current
  | .fieldAccess field opt :: rest, current =>
    match current with
    | .schema _ fields _ _ =>
      match assocGet fields field with
      | none => .error s!"Field \x27{field}\x27 not found"
      | some fieldType =>
        inferPathExpr rest
          (if opt && !isOptionalType fieldType then .optional fieldType
           else fieldType)
    | _ => .error "Cannot access field on non-schema type"
  | .indexAccess _ :: rest, current =>
    match current with
    | .array element => inferPathExpr rest element
    | _ => .error "Cannot index non-array type"

/-- Source `inferLookupExpr(expr)`: the table must resolve to a Lookup symbol;
the result is its declared value type. -/
def inferLookupExpr (symbols : List (String × MSymbol)) (table : String) :
    Except String MType :=
  match assocGet symbols table with
  | some (.lookupSym _ _ valueType) => .ok valueType
  | _ => .error s!"Lookup table \x27{table}\x27 not found"

/-- Source `inferExpr(expr, contextType)`: structural type inference over
expressions.  Binary `+`/`-` on two Quantities demands `unitsEqual` and
returns the left type; `*`/`/` combine units; comparisons and logical
operators yield Bool; `??` yields the right type; `if` yields the then
branch's type when both branches agree, else their Union; aggregates
require an Array source and type their lambda body against the element
type; unhandled expression kinds yield Unknown. -/
def inferExpr (symbols : List (String × MSymbol)) :
    Expr → MType → Except String MType
  | .literal litType, _ => .ok (inferLiteral litType)
  | .path _ segments, contextType => inferPathExpr segments contextType
  | .binary op left right, contextType => do
    let leftType ← inferExpr symbols left contextType
    let rightType ← inferExpr symbols right contextType
    match op with
    | "+" | "-" =>
      match leftType, rightType with
      | .quantity u, .quantity v =>
        if unitsEqual u v then .ok leftType
        else .error "Unit mismatch in addition/subtraction"
      | _, _ => .ok leftType
    | "*" =>
      match leftType, rightType with
      | .quantity u, .quantity v => .ok (.quantity (multiplyUnits u v))
      | _, _ => .ok leftType
    | "/" =>
      match leftType, rightType with
      | .quantity u, .quantity v => .ok (.quantity (divideUnits u v))
      | _, _ => .ok leftType
    | "==" | "!=" | "<" | ">" | "<=" | ">=" => .ok (.primitive "Bool")
    | "&&" | "||" => .ok (.primitive "Bool")
    | "??" => .ok rightType
    | _ => .ok .unknown
  | .unary op operand, contextType => do
    let operandType ← inferExpr symbols operand contextType
    match op with
    | "!" => .ok (.primitive "Bool")
    | "-" => .ok operandType
    | _ => .ok .unknown
  | .ifE condition thenExpr elseExpr, contextType => do
    let _ ← inferExpr symbols condition contextType
    let thenType ← inferExpr symbols thenExpr contextType
    let elseType ← inferExpr symbols elseExpr contextType
    if typesEqual thenType elseType then .ok thenType
    else .ok (.union [thenType, elseType])
  | .aggregate func source _ lambdaBody, contextType => do
    let sourceType ← inferExpr symbols source contextType
    match sourceType with
    | .array elementType => do
      let bodyType ← inferExpr symbols lambdaBody elementType
      match func with
      | "sum" | "avg" => .ok bodyType
      | "collect" => .ok (.array bodyType)
      | "filter" => .ok sourceType
      | "count" => .ok (.primitive "Int")
      | _ => .ok .unknown
    | _ => .error "Aggregate source must be an array"
  | .lookupE table _ _, _ => inferLookupExpr symbols table
  | _, _ => .ok .unknown

/-- Source `resolveTargetPath(type, path)`: walk the target path through schema
field maps; a missing field or a non-schema step throws. -/
def resolveTargetPath : MType → List String → Except String MType
  | current, [] => .ok current
  | current, field :: rest =>
    match current with
    | .schema name fields _ _ =>
      match assocGet fields field with
      | none =>
        .error s!"Field \x27{field}\x27 not found in schema \x27{name}\x27"
      | some fieldType => resolveTargetPath fieldType rest
    | _ => .error s!"Cannot access field \x27{field}\x27 on non-schema type"

/-- Source `checkMappingRule(rule, sourceType, targetType)`: resolve the target
path, infer the source expression, require assignability. -/
def checkMappingRule (st : TCState) (rule : MappingRule)
    (sourceType targetType : MType) : Except String Unit := do
  let targetFieldType ← resolveTargetPath targetType rule.targetPath
  let sourceExprType ← inferExpr st.symbols rule.sourceExpr sourceType
  if isSubtype sourceExprType targetFieldType then .ok ()
  else
    .error s!"Type mismatch: cannot assign {formatType sourceExprType} to {formatType targetFieldType}"

/-- The mapping-rule loop of `checkTransform` (first failure aborts the
declaration). -/
def checkRules (st : TCState) (rules : List MappingRule)
    (sourceType targetType : MType) : Except String Unit :=
  match rules with
  | [] => .ok ()
  | r :: rest => do
    let _ ← checkMappingRule st r sourceType targetType
    checkRules st rest sourceType targetType

/-- The field-resolution loop of `checkSchema`: `fields.set(name, type)`
for each declared field, in order. -/
def buildFields (st : TCState) : List (String × TypeExpr) →
    List (String × MType) → Except String (List (String × MType))
  | [], acc => .ok acc
  | (fname, ftype) :: rest, acc => do
    let t ← resolveTypeExpr st ftype
    buildFields st rest (assocSet acc fname t)

/-- Source `checkSchema(decl)`: resolve all field types, then write them onto the
registered Schema symbol (silently skipped when the symbol is missing or
of another kind). -/
def checkSchema (st : TCState) (name : String)
    (fields : List (String × TypeExpr)) : Except String TCState := do
  let resolved ← buildFields st fields []
  match assocGet st.symbols name with
  | some (.schemaSym n _ gp ga) =>
    .ok { st with symbols := assocSet st.symbols name (.schemaSym n resolved gp ga) }
  | _ => .ok st

/-- Source `checkLookup(decl)`: resolve the key/value types and store them on the
Lookup symbol. -/
def checkLookup (st : TCState) (name : String)
    (keyType valueType : TypeExpr) : Except String TCState := do
  let kt ← resolveTypeExpr st keyType
  let vt ← resolveTypeExpr st valueType
  match assocGet st.symbols name with
  | some (.lookupSym n _ _) =>
    .ok { st with symbols := assocSet st.symbols name (.lookupSym n kt vt) }
  | _ => .ok st

/-- Source `checkTransform(decl)`: resolve source/target types, store them on the
Transform symbol, then check every mapping rule. -/
def checkTransform (st : TCState) (name : String)
    (sourceType targetType : TypeExpr) (rules : List MappingRule) :
    Except String TCState := do
  let src ← resolveTypeExpr st sourceType
  let tgt ← resolveTypeExpr st targetType
  let st2 :=
    match assocGet st.symbols name with
    | some (.transformSym n _ _) =>
      { st with symbols := assocSet st.symbols name (.transformSym n src tgt) }
    | _ => st
  let _ ← checkRules st2 rules src tgt
  .ok st2

/-- The step check inside `checkPipeline`. -/
def checkTransformRef (st : TCState) (name : String) : Except String Unit :=
  match assocGet st.symbols name with
  | some (.transformSym _ _ _) => .ok ()
  | _ => .error s!"Transform \x27{name}\x27 not found"

/-- The parallel-step loop inside `checkPipeline`. -/
def checkTransformRefs (st : TCState) : List String → Except String Unit
  | [] => .ok ()
  | n :: ns => do
    let _ ← checkTransformRef st n
    checkTransformRefs st ns

/-- Source `checkPipeline(decl)`: every referenced transform must resolve to a
Transform symbol; conditional steps are not checked. -/
def checkPipeline (st : TCState) : List PStep → Except String Unit
  | [] => .ok ()
  | .transformStep name :: rest => do
    let _ ← checkTransformRef st name
    checkPipeline st rest
  | .parallelStep names :: rest => do
    let _ ← checkTransformRefs st names
    checkPipeline st rest
  | .conditionalStep _ _ :: rest => checkPipeline st rest

/-- Source `checkDeclaration(decl)`: dispatch on the declaration kind; dimension,
unit, enum and constraint declarations are no-ops in pass 2. -/
def checkDeclaration (d : MDecl) (st : TCState) : Except String TCState :=
  match d with
  | .schemaDecl name _ _ fields => checkSchema st name fields
  | .lookupDecl name kt vt => checkLookup st name kt vt
  | .transformDecl name _ src tgt rules => checkTransform st name src tgt rules
  | .pipelineDecl _ steps => do
    let _ ← checkPipeline st steps
    .ok st
  | _ => .ok st

/-- Checker pass 2: each declaration in its own `try`/`catch`; a thrown
`TypeCheckError` is appended to the error list and checking proceeds. -/
def checkPass2 : List MDecl → TCState → TCState
  | [], st => st
  | d :: ds, st =>
    match checkDeclaration d st with
    | .ok st2 => checkPass2 ds st2
    | .error e => checkPass2 ds { st with errors := st.errors ++ [e] }

/-- Source `TypeChecker.check(program)`: pass 1 (units/dimensions, uncaught), then
pass 2 (declarations, caught per declaration); the result is the error
list.  `Except.error` models an exception escaping `check` itself. -/
def check (symbols : List (String × MSymbol)) (program : List MDecl) :
    Except String (List String) := do
  let st ← checkPass1 program ⟨symbols, [], [], []⟩
  .ok (checkPass2 program st).errors

/-! ### Heap model of the unit operations

The functional definitions above cannot express mutation, so to settle
whether `multiplyUnits`/`divideUnits`/`powerUnit` modify their argument
`Unit`s we re-run their statements over an explicit heap of unit objects
addressed by naturals.  `new Map(a.dimensions)` allocates a fresh
address; every subsequent `set`/`delete` of the loop body writes through
that fresh address only. -/

/-- A heap of unit objects: address → (dimension map, scale). -/
abbrev Store := List (Nat × (DimMap × ℚ))

/-- Heap read. -/
def Store.get (σ : Store) (p : Nat) : Option (DimMap × ℚ) := assocGet σ p

/-- Heap write. -/
def Store.set (σ : Store) (p : Nat) (v : DimMap × ℚ) : Store := assocSet σ p v

/-- An address not yet used by the heap. -/
def freshAddr (σ : Store) : Nat :=
  σ.foldr (fun q acc => max (q.1 + 1) acc) 0

/-- One iteration of the `multiplyUnits` merge loop over the heap: read the
map under construction at `pd`, apply `set(dim, (get(dim) ?? 0) + exp)`,
write it back to `pd`. -/
def mulStep (pd : Nat) (s : Store) (q : String × Int) : Store :=
  let cur := (s.get pd).getD ([], 1)
  s.set pd (assocSet cur.1 q.1 ((assocGet cur.1 q.1).getD 0 + q.2), cur.2)

/-- One iteration of the `divideUnits` merge loop over the heap. -/
def divStep (pd : Nat) (s : Store) (q : String × Int) : Store :=
  let cur := (s.get pd).getD ([], 1)
  s.set pd (assocSet cur.1 q.1 ((assocGet cur.1 q.1).getD 0 - q.2), cur.2)

/-- One iteration of the `powerUnit` loop over the heap:
`set(dim, exp * exponent)`. -/
def powStep (pd : Nat) (n : Int) (s : Store) (q : String × Int) : Store :=
  let cur := (s.get pd).getD ([], 1)
  s.set pd (assocSet cur.1 q.1 (q.2 * n), cur.2)

/-- Source `multiplyUnits(a, b)` executed over the heap: read both arguments, copy
`a.dimensions` into a fresh map, run the merge loop and the zero-pruning
loop on the fresh map, return the fresh unit's address. -/
def multiplyUnitsS (σ : Store) (pa pb : Nat) : Store × Nat :=
  let a := (σ.get pa).getD ([], 1)
  let b := (σ.get pb).getD ([], 1)
  let pd := freshAddr σ
  let σ1 := σ.set pd (a.1, a.2 * b.2)
  let σ2 := b.1.foldl (mulStep pd) σ1
  let final := (σ2.get pd).getD ([], 1)
  (σ2.set pd (pruneZeros final.1, final.2), pd)

/-- Source `divideUnits(a, b)` executed over the heap. -/
def divideUnitsS (σ : Store) (pa pb : Nat) : Store × Nat :=
  let a := (σ.get pa).getD ([], 1)
  let b := (σ.get pb).getD ([], 1)
  let pd := freshAddr σ
  let σ1 := σ.set pd (a.1, a.2 / b.2)
  let σ2 := b.1.foldl (divStep pd) σ1
  let final := (σ2.get pd).getD ([], 1)
  (σ2.set pd (pruneZeros final.1, final.2), pd)

/-- Source `powerUnit(unit, exponent)` executed over the heap: build a fresh map
from scratch by the `set(dim, exp * exponent)` loop. -/
def powerUnitS (σ : Store) (pa : Nat) (n : Int) : Store × Nat :=
  let a := (σ.get pa).getD ([], 1)
  let pd := freshAddr σ
  let σ1 := σ.set pd ([], a.2 ^ n)
  let σ2 := a.1.foldl (powStep pd n) σ1
  (σ2, pd)

/-- Proof-layer abbreviation: the exponent of dimension `d` in `l`, with 0
for an absent dimension (`dimensions.get(dim) ?? 0`). -/
def lookupZ (l : DimMap) (d : String) : Int := (assocGet l d).getD 0

/-! ### Lemmas about the association-list `Map` model -/

theorem assocGet_assocSet {κ α : Type} [DecidableEq κ]
    (l : List (κ × α)) (k d : κ) (v : α) :
    assocGet (assocSet l k v) d = if d = k then some v else assocGet l d := by
  induction l with
  | nil =>
    simp only [assocSet, assocGet]
    split_ifs with h1 h2 h2
    · rfl
    · exact absurd h1.symm h2
    · exact absurd h2.symm h1
    · rfl
  | cons hd tl ih =>
    obtain ⟨a, b⟩ := hd
    by_cases hak : a = k
    · subst hak
      simp only [assocSet, if_pos rfl, assocGet]
      split_ifs with h1 h2 h2
      · rfl
      · exact absurd h1.symm h2
      · exact absurd h2.symm h1
      · rfl
    · simp only [assocSet, if_neg hak, assocGet]
      by_cases had : a = d
      · subst had
        simp [hak]
      · simp [had, ih]

theorem assocGet_eq_none_of_not_mem {κ α : Type} [DecidableEq κ]
    (l : List (κ × α)) (d : κ) (h : d ∉ l.map Prod.fst) :
    assocGet l d = none := by
  induction l with
  | nil => rfl
  | cons hd tl ih =>
    simp only [List.map_cons, List.mem_cons] at h
    push_neg at h
    have h1 : hd.1 ≠ d := fun he => h.1 he.symm
    obtain ⟨a, b⟩ := hd
    simpa [assocGet, h1] using ih h.2

theorem assocGet_mem {κ α : Type} [DecidableEq κ]
    (l : List (κ × α)) (d : κ) (v : α) (h : assocGet l d = some v) :
    (d, v) ∈ l := by
  induction l with
  | nil => simp [assocGet] at h
  | cons hd tl ih =>
    obtain ⟨a, b⟩ := hd
    by_cases hda : a = d
    · subst hda
      simp [assocGet] at h
      exact List.mem_cons.mpr (Or.inl (by simp [h]))
    · simp only [assocGet, if_neg hda] at h
      exact List.mem_cons_of_mem _ (ih h)

theorem assocGet_of_mem_nodup {κ α : Type} [DecidableEq κ]
    (l : List (κ × α)) (d : κ) (v : α)
    (hnd : (l.map Prod.fst).Nodup) (h : (d, v) ∈ l) :
    assocGet l d = some v := by
  induction l with
  | nil => simp at h
  | cons hd tl ih =>
    obtain ⟨a, b⟩ := hd
    simp only [List.map_cons, List.nodup_cons] at hnd
    rcases List.mem_cons.mp h with h1 | h1
    · rw [Prod.mk.injEq] at h1
      obtain ⟨h2, h3⟩ := h1
      subst h2; subst h3
      simp [assocGet]
    · have hne : a ≠ d := by
        intro he; subst he
        exact hnd.1 (List.mem_map.mpr ⟨(a, v), h1, rfl⟩)
      simpa [assocGet, hne] using ih hnd.2 h1

theorem mem_keys_iff_assocGet {κ α : Type} [DecidableEq κ]
    (l : List (κ × α)) (d : κ) :
    d ∈ l.map Prod.fst ↔ (assocGet l d).isSome := by
  induction l with
  | nil => simp [assocGet]
  | cons hd tl ih =>
    obtain ⟨a, b⟩ := hd
    simp only [List.map_cons, List.mem_cons, assocGet]
    by_cases hda : a = d
    · subst hda; simp
    · have h2 : ¬ (d = a) := fun he => hda he.symm
      simpa [hda, h2] using ih

theorem mem_keys_assocSet {κ α : Type} [DecidableEq κ]
    (l : List (κ × α)) (k d : κ) (v : α) :
    d ∈ (assocSet l k v).map Prod.fst ↔ d = k ∨ d ∈ l.map Prod.fst := by
  rw [mem_keys_iff_assocGet, assocGet_assocSet]
  by_cases h : d = k
  · simp [h]
  · simp only [if_neg h, h, false_or]
    exact (mem_keys_iff_assocGet l d).symm

theorem nodup_keys_assocSet {κ α : Type} [DecidableEq κ]
    (l : List (κ × α)) (k : κ) (v : α)
    (h : (l.map Prod.fst).Nodup) : ((assocSet l k v).map Prod.fst).Nodup := by
  induction l with
  | nil => simp [assocSet]
  | cons hd tl ih =>
    obtain ⟨a, b⟩ := hd
    simp only [List.map_cons, List.nodup_cons] at h
    by_cases hak : a = k
    · subst hak; simpa [assocSet] using h
    · simp only [assocSet, if_neg hak, List.map_cons, List.nodup_cons]
      refine ⟨fun hmem => ?_, ih h.2⟩
      rcases (mem_keys_assocSet tl k a v).mp hmem with h1 | h1
      · exact hak h1
      · exact h.1 h1

/-! ### Lemmas about the merge loops and zero pruning -/

theorem nodup_keys_foldl_assocSet (f : DimMap → String × Int → Int) :
    ∀ (b a : DimMap), (a.map Prod.fst).Nodup →
      ((b.foldl (fun acc p => assocSet acc p.1 (f acc p)) a).map
        Prod.fst).Nodup
  | [], _, h => h
  | p :: t, a, h =>
    nodup_keys_foldl_assocSet f t (assocSet a p.1 (f a p))
      (nodup_keys_assocSet a p.1 (f a p) h)

theorem nodup_keys_mergeAdd (a b : DimMap)
    (h : (a.map Prod.fst).Nodup) : ((mergeAdd a b).map Prod.fst).Nodup :=
  nodup_keys_foldl_assocSet (fun acc p => (assocGet acc p.1).getD 0 + p.2)
    b a h

theorem nodup_keys_mergeSub (a b : DimMap)
    (h : (a.map Prod.fst).Nodup) : ((mergeSub a b).map Prod.fst).Nodup :=
  nodup_keys_foldl_assocSet (fun acc p => (assocGet acc p.1).getD 0 - p.2)
    b a h

theorem lookupZ_foldl (f : Int → Int → Int) :
    ∀ (b a : DimMap) (d : String), (b.map Prod.fst).Nodup →
      lookupZ
        (b.foldl (fun acc p => assocSet acc p.1 (f (lookupZ acc p.1) p.2)) a)
        d =
      (match assocGet b d with
       | some v => f (lookupZ a d) v
       | none => lookupZ a d) := by
  intro b
  induction b with
  | nil => intro a d _; rfl
  | cons p t ih =>
    intro a d hnd
    obtain ⟨k, v⟩ := p
    simp only [List.map_cons, List.nodup_cons] at hnd
    have step :
        ((k, v) :: t).foldl
            (fun acc p => assocSet acc p.1 (f (lookupZ acc p.1) p.2)) a =
          t.foldl (fun acc p => assocSet acc p.1 (f (lookupZ acc p.1) p.2))
            (assocSet a k (f (lookupZ a k) v)) := rfl
    rw [step, ih _ d hnd.2]
    by_cases hdk : d = k
    · subst hdk
      have ht : assocGet t d = none :=
        assocGet_eq_none_of_not_mem t d hnd.1
      have ha : lookupZ (assocSet a d (f (lookupZ a d) v)) d =
          f (lookupZ a d) v := by
        simp [lookupZ, assocGet_assocSet]
      simp [assocGet, ht, ha]
    · have hkd : ¬ (k = d) := fun he => hdk he.symm
      have ha : lookupZ (assocSet a k (f (lookupZ a k) v)) d = lookupZ a d := by
        simp [lookupZ, assocGet_assocSet, hdk]
      simp [assocGet, hkd, ha]

theorem lookupZ_mergeAdd (a b : DimMap) (d : String)
    (hb : (b.map Prod.fst).Nodup) :
    lookupZ (mergeAdd a b) d = lookupZ a d + lookupZ b d := by
  have h := lookupZ_foldl (fun x y => x + y) b a d hb
  have he : mergeAdd a b =
      b.foldl
        (fun acc p =>
          assocSet acc p.1 ((fun x y => x + y) (lookupZ acc p.1) p.2)) a := rfl
  rw [he, h]
  cases hg : assocGet b d <;> simp [lookupZ, hg]

theorem lookupZ_mergeSub (a b : DimMap) (d : String)
    (hb : (b.map Prod.fst).Nodup) :
    lookupZ (mergeSub a b) d = lookupZ a d - lookupZ b d := by
  have h := lookupZ_foldl (fun x y => x - y) b a d hb
  have he : mergeSub a b =
      b.foldl
        (fun acc p =>
          assocSet acc p.1 ((fun x y => x - y) (lookupZ acc p.1) p.2)) a := rfl
  rw [he, h]
  cases hg : assocGet b d <;> simp [lookupZ, hg]

theorem nodup_keys_pruneZeros (l : DimMap)
    (h : (l.map Prod.fst).Nodup) : ((pruneZeros l).map Prod.fst).Nodup :=
  List.Nodup.sublist (List.Sublist.map Prod.fst (List.filter_sublist l)) h

theorem pruneZeros_mem_ne_zero (l : DimMap) (p : String × Int)
    (h : p ∈ pruneZeros l) : p.2 ≠ 0 := by
  have := List.of_mem_filter h
  simpa using this

theorem assocGet_pruneZeros (l : DimMap) (d : String)
    (hnd : (l.map Prod.fst).Nodup) :
    assocGet (pruneZeros l) d =
      (match assocGet l d with
       | some v => if v = 0 then none else some v
       | none => none) := by
  induction l with
  | nil => rfl
  | cons p t ih =>
    obtain ⟨a, b⟩ := p
    simp only [List.map_cons, List.nodup_cons] at hnd
    by_cases hb0 : b = 0
    · subst hb0
      have hstep : pruneZeros ((a, (0 : Int)) :: t) = pruneZeros t := by
        simp [pruneZeros]
      rw [hstep, ih hnd.2]
      by_cases hda : a = d
      · subst hda
        have ht : assocGet t a = none :=
          assocGet_eq_none_of_not_mem t a hnd.1
        simp [assocGet, ht]
      · simp [assocGet, hda]
    · have hstep : pruneZeros ((a, b) :: t) = (a, b) :: pruneZeros t := by
        simp [pruneZeros, hb0]
      rw [hstep]
      by_cases hda : a = d
      · subst hda
        simp [assocGet, hb0]
      · simp [assocGet, hda, ih hnd.2]

theorem lookupZ_pruneZeros (l : DimMap) (d : String)
    (hnd : (l.map Prod.fst).Nodup) :
    lookupZ (pruneZeros l) d = lookupZ l d := by
  unfold lookupZ
  rw [assocGet_pruneZeros l d hnd]
  cases hg : assocGet l d with
  | none => rfl
  | some v =>
    by_cases hv : v = 0 <;> simp [hv]

theorem isSome_assocGet_iff_lookupZ_ne (l : DimMap) (d : String)
    (hc : ∀ p ∈ l, p.2 ≠ 0) :
    (assocGet l d).isSome ↔ lookupZ l d ≠ 0 := by
  cases hg : assocGet l d with
  | none => simp [lookupZ, hg]
  | some v =>
    have hv : v ≠ 0 := hc (d, v) (assocGet_mem l d v hg)
    simp [lookupZ, hg, hv]

/-! ### Lemmas about type equality and subtyping -/

theorem unitsEqual_refl (u : MUnit) (h : u.WF) : unitsEqual u u = true := by
  unfold unitsEqual
  rw [Bool.and_eq_true]
  refine ⟨by simp, ?_⟩
  rw [List.all_eq_true]
  intro p hp
  have := assocGet_of_mem_nodup u.dims p.1 p.2 h hp
  simp [this]

theorem pairwiseEqual_self (as : List MType)
    (h : ∀ m ∈ as, typesEqual m m = true) : pairwiseEqual as as = true := by
  induction as with
  | nil => simp [pairwiseEqual]
  | cons a t ih =>
    have h1 := h a (List.mem_cons_self a t)
    have h2 := ih (fun m hm => h m (List.mem_cons_of_mem a hm))
    simp [pairwiseEqual, h1, h2]

theorem existsEqual_of_mem (m : MType) (bs : List MType) (b : MType)
    (hb : b ∈ bs) (h : typesEqual m b = true) : existsEqual m bs = true := by
  induction bs with
  | nil => simp at hb
  | cons x t ih =>
    rcases List.mem_cons.mp hb with h1 | h1
    · subst h1; simp [existsEqual, h]
    · simp [existsEqual, ih h1]

theorem allExistsEqual_self (as : List MType)
    (h : ∀ m ∈ as, typesEqual m m = true) : allExistsEqual as as = true := by
  have haux : ∀ (xs : List MType), (∀ m ∈ xs, existsEqual m as = true) →
      allExistsEqual xs as = true := by
    intro xs
    induction xs with
    | nil => intro _; simp [allExistsEqual]
    | cons x t ih =>
      intro hx
      have h1 := hx x (List.mem_cons_self x t)
      have h2 := ih (fun m hm => hx m (List.mem_cons_of_mem x hm))
      simp [allExistsEqual, h1, h2]
  exact haux as (fun m hm => existsEqual_of_mem m as m hm (h m hm))

theorem typesEqual_refl (t : MType) (h : t.WF) : typesEqual t t = true := by
  induction h with
  | primitive name => simp [typesEqual]
  | schema name fields gp ga _ _ _ _ => simp [typesEqual]
  | enum name vs => simp [typesEqual]
  | array e _ ih => simp [typesEqual, ih]
  | optional e _ ih => simp [typesEqual, ih]
  | quantity u hu => simpa [typesEqual] using unitsEqual_refl u hu
  | tuple es _ ih => simp [typesEqual, pairwiseEqual_self es ih]
  | union ms _ ih => simp [typesEqual, allExistsEqual_self ms ih]
  | function ps r _ _ ihp ihr =>
    simp [typesEqual, pairwiseEqual_self ps ihp, ihr]
  | typeVar n i => simp [typesEqual]
  | never => simp [typesEqual]
  | unknown => simp [typesEqual]

theorem existsEqual_iff (m : MType) (bs : List MType) :
    existsEqual m bs = true ↔ ∃ b ∈ bs, typesEqual m b = true := by
  induction bs with
  | nil => simp [existsEqual]
  | cons x t ih => simp [existsEqual, ih, Bool.or_eq_true]

theorem allExistsEqual_iff (as bs : List MType) :
    allExistsEqual as bs = true ↔
      ∀ a ∈ as, ∃ b ∈ bs, typesEqual a b = true := by
  induction as with
  | nil => simp [allExistsEqual]
  | cons x t ih =>
    simp [allExistsEqual, Bool.and_eq_true, ih, existsEqual_iff]

/-! ### Lemmas about the heap model -/

theorem freshAddr_gt (σ : Store) : ∀ q ∈ σ, q.1 < freshAddr σ := by
  induction σ with
  | nil => intro q hq; simp at hq
  | cons x t ih =>
    intro q hq
    have hstep : freshAddr (x :: t) = max (x.1 + 1) (freshAddr t) := rfl
    rcases List.mem_cons.mp hq with h1 | h1
    · subst h1; rw [hstep]; omega
    · have := ih q h1; rw [hstep]; omega

theorem freshAddr_not_mem (σ : Store) : freshAddr σ ∉ σ.map Prod.fst := by
  intro hmem
  rcases List.mem_map.mp hmem with ⟨q, hq, hfst⟩
  have := freshAddr_gt σ q hq
  omega

theorem store_get_set (σ : Store) (p x : Nat) (v : DimMap × ℚ) :
    (σ.set p v).get x = if x = p then some v else σ.get x :=
  assocGet_assocSet σ p x v

theorem store_get_ne_of_some (σ : Store) (p : Nat) (v : DimMap × ℚ)
    (h : σ.get p = some v) : p ≠ freshAddr σ := by
  intro he
  have hmem : p ∈ σ.map Prod.fst :=
    List.mem_map.mpr ⟨(p, v), assocGet_mem σ p v h, rfl⟩
  rw [he] at hmem
  exact freshAddr_not_mem σ hmem

theorem foldl_mulStep_get_ne (pd : Nat) :
    ∀ (l : DimMap) (s : Store) (x : Nat), x ≠ pd →
      (l.foldl (mulStep pd) s).get x = s.get x := by
  intro l
  induction l with
  | nil => intro s x _; rfl
  | cons q t ih =>
    intro s x hx
    have : (mulStep pd s q).get x = s.get x := by
      unfold mulStep
      rw [store_get_set, if_neg hx]
    rw [List.foldl_cons, ih _ x hx, this]

theorem foldl_divStep_get_ne (pd : Nat) :
    ∀ (l : DimMap) (s : Store) (x : Nat), x ≠ pd →
      (l.foldl (divStep pd) s).get x = s.get x := by
  intro l
  induction l with
  | nil => intro s x _; rfl
  | cons q t ih =>
    intro s x hx
    have : (divStep pd s q).get x = s.get x := by
      unfold divStep
      rw [store_get_set, if_neg hx]
    rw [List.foldl_cons, ih _ x hx, this]

theorem foldl_powStep_get_ne (pd : Nat) (n : Int) :
    ∀ (l : DimMap) (s : Store) (x : Nat), x ≠ pd →
      (l.foldl (powStep pd n) s).get x = s.get x := by
  intro l
  induction l with
  | nil => intro s x _; rfl
  | cons q t ih =>
    intro s x hx
    have : (powStep pd n s q).get x = s.get x := by
      unfold powStep
      rw [store_get_set, if_neg hx]
    rw [List.foldl_cons, ih _ x hx, this]

theorem foldl_mulStep_get_pd (pd : Nat) :
    ∀ (l : DimMap) (s : Store) (m : DimMap) (sc : ℚ),
      s.get pd = some (m, sc) →
      (l.foldl (mulStep pd) s).get pd = some (mergeAdd m l, sc) := by
  intro l
  induction l with
  | nil => intro s m sc h; exact h
  | cons q t ih =>
    intro s m sc h
    have hstep : (mulStep pd s q).get pd =
        some (assocSet m q.1 ((assocGet m q.1).getD 0 + q.2), sc) := by
      unfold mulStep
      rw [h]
      rw [store_get_set, if_pos rfl]
      simp
    rw [List.foldl_cons, ih _ _ _ hstep]
    rfl

theorem foldl_divStep_get_pd (pd : Nat) :
    ∀ (l : DimMap) (s : Store) (m : DimMap) (sc : ℚ),
      s.get pd = some (m, sc) →
      (l.foldl (divStep pd) s).get pd = some (mergeSub m l, sc) := by
  intro l
  induction l with
  | nil => intro s m sc h; exact h
  | cons q t ih =>
    intro s m sc h
    have hstep : (divStep pd s q).get pd =
        some (assocSet m q.1 ((assocGet m q.1).getD 0 - q.2), sc) := by
      unfold divStep
      rw [h]
      rw [store_get_set, if_pos rfl]
      simp
    rw [List.foldl_cons, ih _ _ _ hstep]
    rfl

theorem foldl_powStep_get_pd (pd : Nat) (n : Int) :
    ∀ (l : DimMap) (s : Store) (m : DimMap) (sc : ℚ),
      s.get pd = some (m, sc) →
      (l.foldl (powStep pd n) s).get pd =
        some (l.foldl (fun acc q => assocSet acc q.1 (q.2 * n)) m, sc) := by
  intro l
  induction l with
  | nil => intro s m sc h; exact h
  | cons q t ih =>
    intro s m sc h
    have hstep : (powStep pd n s q).get pd =
        some (assocSet m q.1 (q.2 * n), sc) := by
      unfold powStep
      rw [h]
      rw [store_get_set, if_pos rfl]
      simp
    rw [List.foldl_cons, ih _ _ _ hstep]
    rw [List.foldl_cons]

theorem assocSet_not_mem_append {κ α : Type} [DecidableEq κ]
    (l : List (κ × α)) (k : κ) (v : α) (h : k ∉ l.map Prod.fst) :
    assocSet l k v = l ++ [(k, v)] := by
  induction l with
  | nil => rfl
  | cons x t ih =>
    simp only [List.map_cons, List.mem_cons] at h
    push_neg at h
    obtain ⟨a, b⟩ := x
    have h1 : a ≠ k := fun he => h.1 he.symm
    simp [assocSet, h1, ih h.2]

theorem foldl_assocSet_eq_map (n : Int) :
    ∀ (l : DimMap) (acc : DimMap),
      (∀ d ∈ l.map Prod.fst, d ∉ acc.map Prod.fst) →
      (l.map Prod.fst).Nodup →
      l.foldl (fun m q => assocSet m q.1 (q.2 * n)) acc =
        acc ++ l.map (fun p => (p.1, p.2 * n)) := by
  intro l
  induction l with
  | nil => intro acc _ _; simp
  | cons q t ih =>
    intro acc hdisj hnd
    simp only [List.map_cons, List.nodup_cons] at hnd
    have hq : q.1 ∉ acc.map Prod.fst :=
      hdisj q.1 (by simp)
    rw [List.foldl_cons, assocSet_not_mem_append acc q.1 (q.2 * n) hq]
    rw [ih (acc ++ [(q.1, q.2 * n)]) ?hdisj hnd.2]
    · simp
    case hdisj =>
      intro d hd
      simp only [List.map_append, List.mem_append, List.map_cons]
      push_neg
      constructor
      · exact hdisj d (by simp [hd])
      · simp only [List.map_nil, List.mem_singleton]
        intro he
        rw [he] at hd
        exact hnd.1 hd

/-! ### Concrete instances used by the claim theorems -/

/-- The `Manager` schema of spec Scenario D: one field `name : String`. -/
def managerType : MType := .schema "Manager" [("name", .primitive "String")] [] []

/-- The Scenario D source schema: `manager : Manager?` (Optional). -/
def scenarioDSchema : MType :=
  .schema "Employee" [("manager", .optional managerType)] [] []

/-- The segments the parser produces for `$.manager?.name`: the `?.` token
precedes `name`, so the parser marks the `name` segment optional. -/
def managerNamePath : List PathSeg :=
  [.fieldAccess "manager" false, .fieldAccess "name" true]

/-! ### Claim theorems -/

/-- C1: the claim states that `TypeChecker.check` never throws and that a
`TypeCheckError` raised for any declaration — including a Unit declaration
whose unit expression references an undeclared unit name — is caught at
that declaration's boundary and appended to the error list.  The code
violates this: the first (unit-processing) pass runs with no
`try`/`catch`, so `processUnit` → `evaluateUnitExpr` throwing
`Unit 'undeclared' not found` propagates out of `check` itself, modeled
here by `check` returning `Except.error` instead of an error list. -/
theorem check_throws_on_undeclared_unit :
    check [] [.unitDecl "x" none (some (.unitRef "undeclared"))] =
      .error "Unit \x27undeclared\x27 not found" := rfl

/-- C2 counterexample: inferring `$.manager?.name` against a schema whose
`manager` field has type `Optional(Manager)` does not succeed with
`Optional(String)`; it throws `Cannot access field on non-schema type`,
because after stepping into `manager` the current type is `Optional` and
`inferPathExpr` requires a Schema at every step without unwrapping
Optional. -/
theorem inferPath_optional_chain_errors :
    inferPathExpr managerNamePath scenarioDSchema =
      .error "Cannot access field on non-schema type" ∧
    inferPathExpr managerNamePath scenarioDSchema ≠
      .ok (.optional (.primitive "String")) := by
  refine ⟨rfl, fun h => ?_⟩
  rw [show inferPathExpr managerNamePath scenarioDSchema =
        Except.error "Cannot access field on non-schema type" from rfl] at h
  exact Except.noConfusion h

/-- C2 amended: against the schema with `manager : Manager?` the inference
of `$.manager?.name` fails with `Cannot access field on non-schema type`;
the claimed result `Optional(String)` is produced only when `manager` is
declared with the non-Optional type `Manager` (the optional segment then
wraps the accessed `String` in Optional). -/
theorem inferPath_optional_chain_behavior :
    inferPathExpr managerNamePath scenarioDSchema =
      .error "Cannot access field on non-schema type" ∧
    inferPathExpr managerNamePath
        (.schema "Employee" [("manager", managerType)] [] []) =
      .ok (.optional (.primitive "String")) :=
  ⟨rfl, rfl⟩

/-- C3: the claim states that a duplicate top-level name leaves a
duplicate-symbol `ResolveError` in the returned list.  The code violates
this: `Scope.define` throws a plain `Error`, the resolver's catch keeps
only `instanceof ResolveError`, so the duplicate is swallowed — `resolve`
on two schemas named `A` returns the singleton table and an EMPTY error
list (it does not throw and does continue, but records nothing). -/
theorem resolve_swallows_duplicate_symbol :
    resolve [.schemaDecl "A" [] none [], .schemaDecl "A" [] none []] =
      ([("A", .schemaSym "A" [] [] [])], []) := rfl

/-- C4 counterexample: `typesEqual` on Unions is not a symmetric
both-directions set comparison.  With `A = Union[Int, Int]` and
`B = Union[Int, String]` every member of `A` matches some member of `B`
and the lengths agree, so `typesEqual A B = true`, yet `String ∈ B` has
no match in `A` (the claimed second direction fails) and indeed
`typesEqual B A = false`. -/
theorem typesEqual_union_asymmetric :
    typesEqual (.union [.primitive "Int", .primitive "Int"])
        (.union [.primitive "Int", .primitive "String"]) = true ∧
    typesEqual (.union [.primitive "Int", .primitive "String"])
        (.union [.primitive "Int", .primitive "Int"]) = false := by
  constructor
  · simp [typesEqual, allExistsEqual, existsEqual]
  · simp [typesEqual, allExistsEqual, existsEqual]

/-- C4 amended: `typesEqual` on two Unions holds iff the member lists have
equal length and every member of the first union is `typesEqual` to some
member of the second — a one-directional existence check only (the
reverse direction is not tested, so the comparison is not symmetric). -/
theorem typesEqual_union_characterization (as bs : List MType) :
    typesEqual (.union as) (.union bs) = true ↔
      (as.length = bs.length ∧
        ∀ a ∈ as, ∃ b ∈ bs, typesEqual a b = true) := by
  have h : typesEqual (.union as) (.union bs) =
      ((as.length == bs.length) && allExistsEqual as bs) := by
    simp [typesEqual]
  rw [h, Bool.and_eq_true, allExistsEqual_iff]
  simp

/-- C5 counterexample: `powerUnit` does not prune zero exponents: raising
the base unit `{m ↦ 1}` to the power 0 yields the mapping `{m ↦ 0}`
(a dimension with exponent 0), whose size 1 differs from `UNIT_ONE`'s
empty mapping, so `unitsEqual` with `UNIT_ONE` is false. -/
theorem powerUnit_zero_not_canonical :
    (powerUnit (createUnit [("m", 1)] 1) 0).dims = [("m", 0)] ∧
    unitsEqual (powerUnit (createUnit [("m", 1)] 1) 0) UNIT_ONE = false :=
  ⟨rfl, rfl⟩

/-- C5 amended: every unit produced by `multiplyUnits` or `divideUnits` is
canonical (no dimension with exponent 0 survives the pruning loop), but
`powerUnit` performs no pruning: `powerUnit(u, 0)` maps every dimension
of `u` to exponent 0, so it has an empty mapping (and is `unitsEqual` to
`UNIT_ONE`) only when `u`'s own mapping is empty. -/
theorem unit_ops_canonical_amended (a b u : MUnit) :
    (multiplyUnits a b).dims.all (fun p => p.2 != 0) = true ∧
    (divideUnits a b).dims.all (fun p => p.2 != 0) = true ∧
    (powerUnit u 0).dims = u.dims.map (fun p => (p.1, 0)) := by
  refine ⟨?_, ?_, ?_⟩
  · rw [List.all_eq_true]
    intro p hp
    have := pruneZeros_mem_ne_zero _ p hp
    simpa using this
  · rw [List.all_eq_true]
    intro p hp
    have := pruneZeros_mem_ne_zero _ p hp
    simpa using this
  · show u.dims.map (fun p => (p.1, p.2 * 0)) = u.dims.map (fun p => (p.1, 0))
    simp

/-- The result the `+`/`-` branch of `inferBinaryExpr` computes from the
two operand types: on two Quantities a `unitsEqual` test deciding between
the left type and the unit-mismatch error, otherwise the left type. -/
def addSubResult (tl tr : MType) : Except String MType :=
  match tl, tr with
  | .quantity u, .quantity v =>
    if unitsEqual u v then .ok tl
    else .error "Unit mismatch in addition/subtraction"
  | _, _ => .ok tl

/-- C6: for `+` and `-`, when the inference of both operands succeeds, the
binary inference throws the unit-mismatch `TypeCheckError` iff both
operand types are Quantity with units that are not dimension-equal
(`unitsEqual`, scale ignored); when both are Quantity with equal units it
returns the left operand's type, and when either operand is not a
Quantity it returns the left operand's type unchanged with no error. -/
theorem inferExpr_add_sub_quantity (symbols : List (String × MSymbol))
    (l r : Expr) (ctx : MType) (op : String) (tl tr : MType)
    (hop : op = "+" ∨ op = "-")
    (hl : inferExpr symbols l ctx = .ok tl)
    (hr : inferExpr symbols r ctx = .ok tr) :
    inferExpr symbols (.binary op l r) ctx = addSubResult tl tr := by
  rcases hop with h | h <;> subst h
  · rw [show inferExpr symbols (.binary "+" l r) ctx =
        Except.bind (inferExpr symbols l ctx) (fun leftType =>
          Except.bind (inferExpr symbols r ctx) (fun rightType =>
            addSubResult leftType rightType)) from rfl, hl, hr]
    rfl
  · rw [show inferExpr symbols (.binary "-" l r) ctx =
        Except.bind (inferExpr symbols l ctx) (fun leftType =>
          Except.bind (inferExpr symbols r ctx) (fun rightType =>
            addSubResult leftType rightType)) from rfl, hl, hr]
    rfl

/-- C6 witness: two `Quantity<E>` fields added against a concrete schema
context infer to the left `Quantity<E>` type with no error. -/
theorem inferExpr_add_sub_quantity_witness :
    inferExpr []
        (.binary "+" (.path none [.fieldAccess "x" false])
          (.path none [.fieldAccess "y" false]))
        (.schema "A"
          [("x", .quantity (createUnit [("E", 1)] 1)),
           ("y", .quantity (createUnit [("E", 1)] 1))] [] []) =
      .ok (.quantity (createUnit [("E", 1)] 1)) := by
  have h := inferExpr_add_sub_quantity []
    (.path none [.fieldAccess "x" false])
    (.path none [.fieldAccess "y" false])
    (.schema "A"
      [("x", .quantity (createUnit [("E", 1)] 1)),
       ("y", .quantity (createUnit [("E", 1)] 1))] [] [])
    "+" (.quantity (createUnit [("E", 1)] 1))
    (.quantity (createUnit [("E", 1)] 1))
    (Or.inl rfl) rfl rfl
  rw [h]
  rfl

/-- C7 counterexample: the round trip fails for a unit whose mapping holds
a zero exponent.  Such units are reachable (`powerUnit` does not prune):
with `a = powerUnit({m ↦ 1}, 0) = {m ↦ 0}` and `b = UNIT_ONE`,
`multiplyUnits(a, b)` prunes `m` away, so the final mapping is empty
while `a`'s mapping still has size 1 — `unitsEqual` is false. -/
theorem unitsEqual_roundtrip_fails_noncanonical :
    unitsEqual
      (divideUnits
        (multiplyUnits (powerUnit (createUnit [("m", 1)] 1) 0) UNIT_ONE)
        UNIT_ONE)
      (powerUnit (createUnit [("m", 1)] 1) 0) = false := rfl

/-- C7 amended: for all units `a` and `b` with duplicate-free dimension
keys (automatic for JS `Map`s), if `a` is canonical — its mapping holds
no zero exponent — then
`unitsEqual(divideUnits(multiplyUnits(a, b), b), a)` holds; scale is
ignored by `unitsEqual`. -/
theorem unitsEqual_mul_div_roundtrip (a b : MUnit)
    (ha : MUnit.WF a) (hb : MUnit.WF b)
    (hcanon : ∀ p ∈ a.dims, p.2 ≠ 0) :
    unitsEqual (divideUnits (multiplyUnits a b) b) a = true := by
  have hA : (a.dims.map Prod.fst).Nodup := ha
  have hB : (b.dims.map Prod.fst).Nodup := hb
  have hM : ((mergeAdd a.dims b.dims).map Prod.fst).Nodup :=
    nodup_keys_mergeAdd a.dims b.dims hA
  have hMP : ((pruneZeros (mergeAdd a.dims b.dims)).map Prod.fst).Nodup :=
    nodup_keys_pruneZeros _ hM
  have hS : ((mergeSub (pruneZeros (mergeAdd a.dims b.dims)) b.dims).map
      Prod.fst).Nodup := nodup_keys_mergeSub _ b.dims hMP
  have hR : ((pruneZeros (mergeSub (pruneZeros (mergeAdd a.dims b.dims))
      b.dims)).map Prod.fst).Nodup := nodup_keys_pruneZeros _ hS
  have hpoint : ∀ d,
      lookupZ (pruneZeros (mergeSub (pruneZeros (mergeAdd a.dims b.dims))
        b.dims)) d = lookupZ a.dims d := by
    intro d
    rw [lookupZ_pruneZeros _ d hS]
    rw [lookupZ_mergeSub _ b.dims d hB]
    rw [lookupZ_pruneZeros _ d hM]
    rw [lookupZ_mergeAdd a.dims b.dims d hB]
    ring
  have hRcanon : ∀ p ∈ pruneZeros (mergeSub (pruneZeros
      (mergeAdd a.dims b.dims)) b.dims), p.2 ≠ 0 :=
    fun p hp => pruneZeros_mem_ne_zero _ p hp
  have hkeys : ∀ d,
      d ∈ (pruneZeros (mergeSub (pruneZeros (mergeAdd a.dims b.dims))
        b.dims)).map Prod.fst ↔ d ∈ a.dims.map Prod.fst := by
    intro d
    rw [mem_keys_iff_assocGet, mem_keys_iff_assocGet]
    rw [isSome_assocGet_iff_lookupZ_ne _ d hRcanon]
    rw [isSome_assocGet_iff_lookupZ_ne a.dims d hcanon]
    rw [hpoint d]
  have hlen : (pruneZeros (mergeSub (pruneZeros (mergeAdd a.dims b.dims))
      b.dims)).length = a.dims.length := by
    have h1 : ((pruneZeros (mergeSub (pruneZeros (mergeAdd a.dims b.dims))
        b.dims)).map Prod.fst).toFinset =
        ((a.dims.map Prod.fst)).toFinset := by
      apply Finset.ext
      intro d
      simp only [List.mem_toFinset]
      exact hkeys d
    have h2 := List.toFinset_card_of_nodup hR
    have h3 := List.toFinset_card_of_nodup hA
    have h4 : ((pruneZeros (mergeSub (pruneZeros (mergeAdd a.dims b.dims))
        b.dims)).map Prod.fst).length = (a.dims.map Prod.fst).length := by
      rw [← h2, ← h3, h1]
    simpa using h4
  show ((divideUnits (multiplyUnits a b) b).dims.length == a.dims.length &&
    (divideUnits (multiplyUnits a b) b).dims.all
      (fun p => assocGet a.dims p.1 == some p.2)) = true
  rw [Bool.and_eq_true]
  constructor
  · show ((pruneZeros (mergeSub (pruneZeros (mergeAdd a.dims b.dims))
        b.dims)).length == a.dims.length) = true
    simpa using hlen
  · show ((pruneZeros (mergeSub (pruneZeros (mergeAdd a.dims b.dims))
        b.dims)).all (fun p => assocGet a.dims p.1 == some p.2)) = true
    rw [List.all_eq_true]
    intro p hp
    have h5 : assocGet (pruneZeros (mergeSub (pruneZeros
        (mergeAdd a.dims b.dims)) b.dims)) p.1 = some p.2 :=
      assocGet_of_mem_nodup _ p.1 p.2 hR
        (by cases p; exact hp)
    have h6 : p.2 ≠ 0 := hRcanon p hp
    have h7 : lookupZ a.dims p.1 = p.2 := by
      rw [← hpoint p.1]
      simp [lookupZ, h5]
    cases hg : assocGet a.dims p.1 with
    | none =>
      rw [lookupZ, hg] at h7
      simp at h7
      exact absurd h7.symm h6
    | some w =>
      rw [lookupZ, hg] at h7
      simp at h7
      simp [hg, h7]

/-- C7 witness: the round trip at the concrete canonical units `E¹` and
`M²`. -/
theorem unitsEqual_mul_div_roundtrip_witness :
    unitsEqual
      (divideUnits
        (multiplyUnits (createUnit [("E", 1)] 1) (createUnit [("M", 2)] 1000))
        (createUnit [("M", 2)] 1000))
      (createUnit [("E", 1)] 1) = true := by
  have h := unitsEqual_mul_div_roundtrip
    (createUnit [("E", 1)] 1) (createUnit [("M", 2)] 1000)
    (show (([("E", (1 : Int))].map Prod.fst).Nodup) by decide)
    (show (([("M", (2 : Int))].map Prod.fst).Nodup) by decide)
    (by decide)
  exact h

/-- C8: `isSubtype` is reflexive on every constructible type (every type
whose embedded unit maps have duplicate-free keys, which is all a JS
`Map` can produce), `Never` is a subtype of every type, and every type is
a subtype of `Unknown`. -/
theorem isSubtype_reflexive_bounds (t : MType) :
    (MType.WF t → isSubtype t t = true) ∧
    isSubtype .never t = true ∧
    isSubtype t .unknown = true := by
  refine ⟨fun h => ?_, ?_, ?_⟩
  · rw [isSubtype.eq_def]
    simp [typesEqual_refl t h]
  · rw [isSubtype.eq_def]
    cases t <;> simp [typesEqual]
  · rw [isSubtype.eq_def]
    cases t <;> simp [typesEqual]

/-- C8 witness: the three properties at the concrete type `Int`. -/
theorem isSubtype_reflexive_bounds_witness :
    isSubtype (.primitive "Int") (.primitive "Int") = true ∧
    isSubtype .never (.primitive "Int") = true ∧
    isSubtype (.primitive "Int") .unknown = true :=
  ⟨(isSubtype_reflexive_bounds (.primitive "Int")).1
      (MType.WF.primitive "Int"),
   (isSubtype_reflexive_bounds (.primitive "Int")).2.1,
   (isSubtype_reflexive_bounds (.primitive "Int")).2.2⟩

/-- C9: `Scope.lookup` searches the scope's own map first and then walks
parent links to the root, returning the nearest binding (the first hit
along the chain); when the name is bound nowhere on the chain it returns
`none`, never an error (`lookup` is a total `Option`-valued function);
and `SymbolTable.lookup` delegates to the current scope. -/
theorem scope_lookup_chain (s : Scope) (n : String) (st : SymbolTable) :
    Scope.lookup s n =
      (Scope.chain s).findSome? (fun syms => assocGet syms n) ∧
    ((∀ syms ∈ Scope.chain s, assocGet syms n = none) →
      Scope.lookup s n = none) ∧
    SymbolTable.lookup st n = Scope.lookup st.currentScope n := by
  have hmain : ∀ (sc : Scope), Scope.lookup sc n =
      (Scope.chain sc).findSome? (fun syms => assocGet syms n) := by
    intro sc
    induction sc with
    | root syms =>
      cases hg : assocGet syms n <;>
        simp [Scope.lookup, Scope.chain, hg]
    | child syms p ih =>
      cases hg : assocGet syms n <;>
        simp [Scope.lookup, Scope.chain, hg, ih]
  refine ⟨hmain s, fun h => ?_, rfl⟩
  rw [hmain s]
  rw [List.findSome?_eq_none_iff]
  exact h

/-- C9 witness: looking up a name bound in no scope of a two-scope chain
returns `none`. -/
theorem scope_lookup_chain_witness :
    Scope.lookup (.child [] (.root [])) "missing" = none := by
  have h := scope_lookup_chain (.child [] (.root [])) "missing"
    ⟨.root [], .root []⟩
  refine h.2.1 ?_
  intro syms hm
  simp [Scope.chain] at hm
  rw [hm]
  rfl

/-- C10: run over an explicit heap, `multiplyUnits`, `divideUnits` and
`powerUnit` never mutate their argument units: the units stored at the
argument addresses are unchanged afterwards, the result lives at a fresh
address not present in the initial heap, and the freshly built unit is
exactly the one the functional definitions compute. -/
theorem unit_ops_no_mutation (σ : Store) (pa pb : Nat) (n : Int)
    (ua ub : DimMap × ℚ) (hwa : (ua.1.map Prod.fst).Nodup)
    (ha : σ.get pa = some ua) (hb : σ.get pb = some ub) :
    ((multiplyUnitsS σ pa pb).1.get pa = some ua ∧
     (multiplyUnitsS σ pa pb).1.get pb = some ub ∧
     (multiplyUnitsS σ pa pb).2 ∉ σ.map Prod.fst ∧
     (multiplyUnitsS σ pa pb).1.get (multiplyUnitsS σ pa pb).2 =
       some ((multiplyUnits ⟨ua.1, ua.2⟩ ⟨ub.1, ub.2⟩).dims,
         (multiplyUnits ⟨ua.1, ua.2⟩ ⟨ub.1, ub.2⟩).scale)) ∧
    ((divideUnitsS σ pa pb).1.get pa = some ua ∧
     (divideUnitsS σ pa pb).1.get pb = some ub ∧
     (divideUnitsS σ pa pb).2 ∉ σ.map Prod.fst ∧
     (divideUnitsS σ pa pb).1.get (divideUnitsS σ pa pb).2 =
       some ((divideUnits ⟨ua.1, ua.2⟩ ⟨ub.1, ub.2⟩).dims,
         (divideUnits ⟨ua.1, ua.2⟩ ⟨ub.1, ub.2⟩).scale)) ∧
    ((powerUnitS σ pa n).1.get pa = some ua ∧
     (powerUnitS σ pa n).2 ∉ σ.map Prod.fst ∧
     (powerUnitS σ pa n).1.get (powerUnitS σ pa n).2 =
       some ((powerUnit ⟨ua.1, ua.2⟩ n).dims,
         (powerUnit ⟨ua.1, ua.2⟩ n).scale)) := by
  have hfresh := freshAddr_not_mem σ
  have hpa : pa ≠ freshAddr σ := store_get_ne_of_some σ pa ua ha
  have hpb : pb ≠ freshAddr σ := store_get_ne_of_some σ pb ub hb
  refine ⟨?_, ?_, ?_⟩
  · -- multiplyUnits
    have h1 : (σ.set (freshAddr σ) (ua.1, ua.2 * ub.2)).get (freshAddr σ) =
        some (ua.1, ua.2 * ub.2) := by
      rw [store_get_set, if_pos rfl]
    have h2 : (ub.1.foldl (mulStep (freshAddr σ))
        (σ.set (freshAddr σ) (ua.1, ua.2 * ub.2))).get (freshAddr σ) =
        some (mergeAdd ua.1 ub.1, ua.2 * ub.2) :=
      foldl_mulStep_get_pd (freshAddr σ) ub.1 _ ua.1 (ua.2 * ub.2) h1
    have hmulS : multiplyUnitsS σ pa pb =
        ((ub.1.foldl (mulStep (freshAddr σ))
            (σ.set (freshAddr σ) (ua.1, ua.2 * ub.2))).set (freshAddr σ)
          (pruneZeros (mergeAdd ua.1 ub.1), ua.2 * ub.2), freshAddr σ) := by
      simp only [multiplyUnitsS, ha, hb, Option.getD_some]
      rw [h2]
      rfl
    rw [hmulS]
    refine ⟨?_, ?_, ?_, ?_⟩
    · rw [store_get_set, if_neg hpa,
        foldl_mulStep_get_ne (freshAddr σ) ub.1 _ pa hpa,
        store_get_set, if_neg hpa]
      exact ha
    · rw [store_get_set, if_neg hpb,
        foldl_mulStep_get_ne (freshAddr σ) ub.1 _ pb hpb,
        store_get_set, if_neg hpb]
      exact hb
    · exact hfresh
    · rw [store_get_set, if_pos rfl]
      rfl
  · -- divideUnits
    have h1 : (σ.set (freshAddr σ) (ua.1, ua.2 / ub.2)).get (freshAddr σ) =
        some (ua.1, ua.2 / ub.2) := by
      rw [store_get_set, if_pos rfl]
    have h2 : (ub.1.foldl (divStep (freshAddr σ))
        (σ.set (freshAddr σ) (ua.1, ua.2 / ub.2))).get (freshAddr σ) =
        some (mergeSub ua.1 ub.1, ua.2 / ub.2) :=
      foldl_divStep_get_pd (freshAddr σ) ub.1 _ ua.1 (ua.2 / ub.2) h1
    have hdivS : divideUnitsS σ pa pb =
        ((ub.1.foldl (divStep (freshAddr σ))
            (σ.set (freshAddr σ) (ua.1, ua.2 / ub.2))).set (freshAddr σ)
          (pruneZeros (mergeSub ua.1 ub.1), ua.2 / ub.2), freshAddr σ) := by
      simp only [divideUnitsS, ha, hb, Option.getD_some]
      rw [h2]
      rfl
    rw [hdivS]
    refine ⟨?_, ?_, ?_, ?_⟩
    · rw [store_get_set, if_neg hpa,
        foldl_divStep_get_ne (freshAddr σ) ub.1 _ pa hpa,
        store_get_set, if_neg hpa]
      exact ha
    · rw [store_get_set, if_neg hpb,
        foldl_divStep_get_ne (freshAddr σ) ub.1 _ pb hpb,
        store_get_set, if_neg hpb]
      exact hb
    · exact hfresh
    · rw [store_get_set, if_pos rfl]
      rfl
  · -- powerUnit
    have h1 : (σ.set (freshAddr σ) ([], ua.2 ^ n)).get (freshAddr σ) =
        some ([], ua.2 ^ n) := by
      rw [store_get_set, if_pos rfl]
    have h2 : (ua.1.foldl (powStep (freshAddr σ) n)
        (σ.set (freshAddr σ) ([], ua.2 ^ n))).get (freshAddr σ) =
        some (ua.1.foldl (fun acc q => assocSet acc q.1 (q.2 * n)) [],
          ua.2 ^ n) :=
      foldl_powStep_get_pd (freshAddr σ) n ua.1 _ [] (ua.2 ^ n) h1
    have hpowS : powerUnitS σ pa n =
        (ua.1.foldl (powStep (freshAddr σ) n)
          (σ.set (freshAddr σ) ([], ua.2 ^ n)), freshAddr σ) := by
      simp only [powerUnitS, ha, Option.getD_some]
    rw [hpowS]
    refine ⟨?_, ?_, ?_⟩
    · rw [foldl_powStep_get_ne (freshAddr σ) n ua.1 _ pa hpa,
        store_get_set, if_neg hpa]
      exact ha
    · exact hfresh
    · rw [h2]
      rw [foldl_assocSet_eq_map n ua.1 [] (by simp) hwa]
      rfl

/-- C10 witness: multiplying the units stored at addresses 0 and 1 of a
concrete two-cell heap leaves the unit at address 0 unchanged. -/
theorem unit_ops_no_mutation_witness :
    (multiplyUnitsS [(0, ([("m", 1)], 1)), (1, ([("s", 1)], 1))] 0 1).1.get 0 =
      some ([("m", 1)], 1) := by
  have h := unit_ops_no_mutation
    [(0, ([("m", 1)], 1)), (1, ([("s", 1)], 1))] 0 1 2
    ([("m", 1)], 1) ([("s", 1)], 1) (by decide) rfl rfl
  exact h.1.1

end Morpheus
